/-
Verification of the `md5_fuzz_compare.py` differential fuzz harness
(repository ndoxx/kibble, `script/md5_fuzz_compare.py`).

Shallow embedding conventions:
* Python `int` values used as lengths/counts are embedded as `Nat`
  (all uses in the script are non-negative).
* Byte strings are `List Nat` with every element `< 256`.
* The global random source (`random.choice`) is embedded as an abstract
  stream `g : Nat → Nat` together with a counter `k : Nat` threaded
  through the computation; call number `k` draws `g k`.
* The external `kmd5` binary is embedded as an abstract "world" function
  `world : List String → String` mapping an argv vector to the captured
  standard output of the spawned process.
* `hashlib.md5(...).hexdigest()` is embedded by a concrete implementation
  of the MD5 algorithm (RFC 1321) over `List Nat` bytes, since Python's
  `hashlib` library is outside this repository.
* Console output of `fuzz_compare` is reified as a trace of `Event`s:
  one `progress` event per length, one `adapterCall`/`oracleCall` event
  per external invocation, one `mismatch` event per printed mismatch line.
-/
import Mathlib

namespace KibbleFuzz

/-! ### MD5 (RFC 1321), the algorithm behind `hashlib.md5` -/

/-- Truncation to a 32-bit word. -/
def w32 (n : Nat) : Nat := n % 4294967296

/-- Bitwise complement within 32 bits (argument assumed `< 2^32`). -/
def not32 (x : Nat) : Nat := x ^^^ 4294967295

/-- Left-rotation of a 32-bit word by `s` bits (argument assumed `< 2^32`). -/
def rotl32 (x s : Nat) : Nat := w32 (x <<< s) ||| (x >>> (32 - s))

/-- The 64 MD5 sine-derived constants `K[i]`. -/
def md5_K : List Nat :=
  [0xd76aa478, 0xe8c7b756, 0x242070db, 0xc1bdceee,
   0xf57c0faf, 0x4787c62a, 0xa8304613, 0xfd469501,
   0x698098d8, 0x8b44f7af, 0xffff5bb1, 0x895cd7be,
   0x6b901122, 0xfd987193, 0xa679438e, 0x49b40821,
   0xf61e2562, 0xc040b340, 0x265e5a51, 0xe9b6c7aa,
   0xd62f105d, 0x02441453, 0xd8a1e681, 0xe7d3fbc8,
   0x21e1cde6, 0xc33707d6, 0xf4d50d87, 0x455a14ed,
   0xa9e3e905, 0xfcefa3f8, 0x676f02d9, 0x8d2a4c8a,
   0xfffa3942, 0x8771f681, 0x6d9d6122, 0xfde5380c,
   0xa4beea44, 0x4bdecfa9, 0xf6bb4b60, 0xbebfbc70,
   0x289b7ec6, 0xeaa127fa, 0xd4ef3085, 0x04881d05,
   0xd9d4d039, 0xe6db99e5, 0x1fa27cf8, 0xc4ac5665,
   0xf4292244, 0x432aff97, 0xab9423a7, 0xfc93a039,
   0x655b59c3, 0x8f0ccc92, 0xffeff47d, 0x85845dd1,
   0x6fa87e4f, 0xfe2ce6e0, 0xa3014314, 0x4e0811a1,
   0xf7537e82, 0xbd3af235, 0x2ad7d2bb, 0xeb86d391]

/-- The 64 MD5 per-round left-rotation amounts `s[i]`. -/
def md5_shift : List Nat :=
  [7, 12, 17, 22, 7, 12, 17, 22, 7, 12, 17, 22, 7, 12, 17, 22,
   5, 9, 14, 20, 5, 9, 14, 20, 5, 9, 14, 20, 5, 9, 14, 20,
   4, 11, 16, 23, 4, 11, 16, 23, 4, 11, 16, 23, 4, 11, 16, 23,
   6, 10, 15, 21, 6, 10, 15, 21, 6, 10, 15, 21, 6, 10, 15, 21]

/-- The MD5 round function (F, G, H or I depending on the round index). -/
def md5_f (i b c d : Nat) : Nat :=
  if i < 16 then (b &&& c) ||| (not32 b &&& d)
  else if i < 32 then (d &&& b) ||| (not32 d &&& c)
  else if i < 48 then b ^^^ c ^^^ d
  else c ^^^ (b ||| not32 d)

/-- The MD5 message-word schedule `g(i)`. -/
def md5_g (i : Nat) : Nat :=
  if i < 16 then i
  else if i < 32 then (5 * i + 1) % 16
  else if i < 48 then (3 * i + 5) % 16
  else (7 * i) % 16

/-- One of the 64 MD5 operations on the running state `(a, b, c, d)`. -/
def md5_step (M : List Nat) (st : Nat × Nat × Nat × Nat) (i : Nat) :
    Nat × Nat × Nat × Nat :=
  match st with
  | (a, b, c, d) =>
    let f := w32 (md5_f i b c d + a + md5_K.getD i 0 + M.getD (md5_g i) 0)
    (d, w32 (b + rotl32 f (md5_shift.getD i 0)), b, c)

/-- Decode a 64-byte chunk into 16 little-endian 32-bit words. -/
def chunkWords (chunk : List Nat) : List Nat :=
  (List.range 16).map fun j =>
    chunk.getD (4 * j) 0 + 256 * chunk.getD (4 * j + 1) 0 +
      65536 * chunk.getD (4 * j + 2) 0 + 16777216 * chunk.getD (4 * j + 3) 0

/-- Compression of one 64-byte chunk into the running MD5 state. -/
def md5_compress (st : Nat × Nat × Nat × Nat) (chunk : List Nat) :
    Nat × Nat × Nat × Nat :=
  let M := chunkWords chunk
  match st, (List.range 64).foldl (md5_step M) st with
  | (a0, b0, c0, d0), (a, b, c, d) =>
    (w32 (a0 + a), w32 (b0 + b), w32 (c0 + c), w32 (d0 + d))

/-- MD5 padding: a `0x80` byte, zeros to 56 mod 64, then the 64-bit
little-endian bit length of the original message. -/
def md5_pad (msg : List Nat) : List Nat :=
  let bitLen := (8 * msg.length) % 18446744073709551616
  let zeros := (120 - (msg.length + 1) % 64) % 64
  msg ++ [128] ++ List.replicate zeros 0 ++
    (List.range 8).map fun j => bitLen / 256 ^ j % 256

/-- Serialize a 32-bit word to 4 little-endian bytes. -/
def toLEBytes (w : Nat) : List Nat :=
  [w % 256, w / 256 % 256, w / 65536 % 256, w / 16777216 % 256]

/-- Serialize the final MD5 state to the 16 output bytes. -/
def md5_final (st : Nat × Nat × Nat × Nat) : List Nat :=
  match st with
  | (a, b, c, d) => toLEBytes a ++ toLEBytes b ++ toLEBytes c ++ toLEBytes d

/-- The 16-byte MD5 digest of a byte sequence. -/
def md5_digest (msg : List Nat) : List Nat :=
  let padded := md5_pad msg
  md5_final ((List.range (padded.length / 64)).foldl
    (fun st i => md5_compress st ((padded.drop (64 * i)).take 64))
    (0x67452301, 0xefcdab89, 0x98badcfe, 0x10325476))

/-! ### Lowercase hexadecimal rendering (`hexdigest`) -/

/-- The sixteen lowercase hexadecimal digit characters. -/
def hexCharsList : List Char := "0123456789abcdef".data

/-- Render one byte as two lowercase hex characters, high nibble first. -/
def byteToHexChars (b : Nat) : List Char :=
  [hexCharsList.getD (b / 16) 'x', hexCharsList.getD (b % 16) 'x']

/-- Render a byte sequence as its lowercase hex character sequence. -/
def bytesToHexChars (bs : List Nat) : List Char :=
  bs.flatMap byteToHexChars

/-- Render a byte sequence as a lowercase hex string. -/
def bytesToLowerHex (bs : List Nat) : String :=
  String.mk (bytesToHexChars bs)

/-! ### The reference oracle `calculate_md5_using_hashlib` -/

/-- UTF-8 encoding of a string, as a byte list. -/
def utf8Bytes (s : String) : List Nat :=
  s.toUTF8.toList.map fun b => b.toNat

/-- The state of a `hashlib.md5()` object: the bytes fed to it so far. -/
structure MD5Ctx where
  buffer : List Nat
deriving DecidableEq, Repr

/-- Python `hashlib.md5()`: a fresh digest object with an empty buffer. -/
def hashlib_md5_new : MD5Ctx := ⟨[]⟩

/-- Python `md5.update(bs)`: append bytes to the object's buffer. -/
def MD5Ctx.update (ctx : MD5Ctx) (bs : List Nat) : MD5Ctx :=
  ⟨ctx.buffer ++ bs⟩

/-- Python `md5.hexdigest()`: the lowercase hex rendering of the MD5 digest of the
buffered bytes. -/
def MD5Ctx.hexdigest (ctx : MD5Ctx) : String :=
  bytesToLowerHex (md5_digest ctx.buffer)

/-- Function `calculate_md5_using_hashlib`: build a fresh md5 object, update it with
the UTF-8 encoding of the input string, return the lowercase hex digest. -/
def calculate_md5_using_hashlib (input_string : String) : String :=
  let md5 := hashlib_md5_new
  let md5 := md5.update (utf8Bytes input_string)
  md5.hexdigest

/-! ### Python string primitives used by the script -/

/-- The ASCII whitespace characters stripped by Python's `str.strip()`
(space, tab, newline, carriage return, vertical tab, form feed). -/
def isPyWhitespace (c : Char) : Bool :=
  c = ' ' || c = '\t' || c = '\n' || c = '\r' || c = '\x0b' || c = '\x0c'

/-- Python `s.strip()`: remove leading and trailing whitespace. -/
def pyStrip (s : String) : String :=
  ⟨((s.data.dropWhile isPyWhitespace).reverse.dropWhile isPyWhitespace).reverse⟩

/-- Python `s[:-3]`: all of `s` except its last three characters
(the empty string when `s` has fewer than three characters). -/
def pySliceDropLast3 (s : String) : String :=
  ⟨s.data.take (s.data.length - 3)⟩

/-! ### The system-under-test adapter `calculate_md5_using_kibble` -/

/-- The argv vector `["../bin/kmd5", input_string]` built by the adapter. -/
def kmd5_command (input_string : String) : List String :=
  ["../bin/kmd5", input_string]

/-- Function `calculate_md5_using_kibble`: run the external `kmd5` binary with the
input string as its single positional argument, capture its standard output
(given by the abstract `world`), and strip surrounding whitespace. -/
def calculate_md5_using_kibble (world : List String → String)
    (input_string : String) : String :=
  pyStrip (world (kmd5_command input_string))

/-! ### The unused md5sum-based path `calculate_md5_using_md5sum` -/

/-- Command `echo -n s` writes its argument verbatim, without a trailing newline;
for the alphanumeric strings of this harness the output bytes are exactly
the UTF-8 bytes of `s`. -/
def echo_n_stdout (input_string : String) : List Nat :=
  utf8Bytes input_string

/-- Model of the external `md5sum` utility reading the piped bytes from
stdin: it writes the 32-character lowercase hex digest followed by two
spaces, a dash naming stdin, and a newline. -/
def md5sum_stdout (bytes : List Nat) : String :=
  bytesToLowerHex (md5_digest bytes) ++ "  -\n"

/-- Function `calculate_md5_using_md5sum`: pipe the string through `echo -n` into
`md5sum`, strip surrounding whitespace from the captured output, and drop
the last three characters. -/
def calculate_md5_using_md5sum (input_string : String) : String :=
  pySliceDropLast3 (pyStrip (md5sum_stdout (echo_n_stdout input_string)))

/-! ### The test-case generator `generate_random_string` -/

/-- Python `string.ascii_letters`: the lowercase then uppercase ASCII letters. -/
def ascii_letters : List Char :=
  "abcdefghijklmnopqrstuvwxyzABCDEFGHIJKLMNOPQRSTUVWXYZ".data

/-- Python `string.digits`: the ten decimal digit characters. -/
def ascii_digits : List Char := "0123456789".data

/-- The list `characters = string.ascii_letters + string.digits`. -/
def characters : List Char := ascii_letters ++ ascii_digits

/-- Python `random.choice(l)`: draw the next value of the random stream `g` at
counter `k` and index into `l` with it; the counter advances by one. -/
def random_choice (g : Nat → Nat) (k : Nat) (l : List Char) : Char × Nat :=
  (l.getD (g k % l.length) 'a', k + 1)

/-- Function `generate_random_string`: join `length` successive `random.choice`
draws from `characters`; returns the string and the advanced counter. -/
def generate_random_string (g : Nat → Nat) (length : Nat) (k : Nat) :
    String × Nat :=
  (String.mk ((List.range length).map fun i =>
      (random_choice g (k + i) characters).1),
   k + length)

/-! ### The comparison driver `fuzz_compare` -/

/-- One observable side effect of a `fuzz_compare` run: the progress line
printed for a length, one invocation of the external `kmd5` adapter, one
invocation of the hashlib oracle, or one printed mismatch line carrying
the input string and both digests. -/
inductive Event where
  | progress (length : Nat)
  | adapterCall (input : String)
  | oracleCall (input : String)
  | mismatch (input candidate expected : String)
deriving DecidableEq, Repr

/-- Whether an event is a progress line. -/
def Event.isProgress : Event → Bool
  | .progress _ => true
  | _ => false

/-- Whether an event is an adapter (kmd5 subprocess) invocation. -/
def Event.isAdapterCall : Event → Bool
  | .adapterCall _ => true
  | _ => false

/-- Whether an event is a reference-oracle invocation. -/
def Event.isOracleCall : Event → Bool
  | .oracleCall _ => true
  | _ => false

/-- Whether an event is a mismatch report. -/
def Event.isMismatch : Event → Bool
  | .mismatch _ _ _ => true
  | _ => false

/-- The length carried by a progress event, if any. -/
def progressOf : Event → Option Nat
  | .progress L => some L
  | _ => none

/-- The input carried by an adapter invocation, if any. -/
def adapterInputOf : Event → Option String
  | .adapterCall s => some s
  | _ => none

/-- The input carried by an oracle invocation, if any. -/
def oracleInputOf : Event → Option String
  | .oracleCall s => some s
  | _ => none

/-- The lengths of the progress lines of a trace, in order. -/
def progressLengths (evs : List Event) : List Nat :=
  evs.filterMap progressOf

/-- The inputs passed to the adapter in a trace, in order. -/
def adapterInputs (evs : List Event) : List String :=
  evs.filterMap adapterInputOf

/-- The inputs passed to the oracle in a trace, in order. -/
def oracleInputs (evs : List Event) : List String :=
  evs.filterMap oracleInputOf

/-- The mismatch reports of a trace, in order. -/
def mismatchEvents (evs : List Event) : List Event :=
  evs.filter Event.isMismatch

/-- One trial of the inner loop of `fuzz_compare`: generate a fresh random
string of the given length, obtain the candidate digest from the kmd5
adapter and the expected digest from the hashlib oracle, and print a
mismatch line exactly when they differ. Returns the emitted events and
the advanced random counter. -/
def runTrial (world : List String → String) (g : Nat → Nat)
    (length k : Nat) : List Event × Nat :=
  let random_string := (generate_random_string g length k).1
  let nuclear_md5 := calculate_md5_using_kibble world random_string
  let ref_md5 := calculate_md5_using_hashlib random_string
  ([Event.adapterCall random_string, Event.oracleCall random_string] ++
     (if nuclear_md5 = ref_md5 then []
      else [Event.mismatch random_string nuclear_md5 ref_md5]),
   (generate_random_string g length k).2)

/-- Run `num_tests` successive trials at a fixed length. -/
def runTrials (world : List String → String) (g : Nat → Nat) (length : Nat) :
    Nat → Nat → List Event × Nat
  | 0, k => ([], k)
  | n + 1, k =>
    ((runTrial world g length k).1 ++
       (runTrials world g length n (runTrial world g length k).2).1,
     (runTrials world g length n (runTrial world g length k).2).2)

/-- The outer loop of `fuzz_compare` over a list of lengths: a progress
line, then `num_tests` trials, for each length in turn. -/
def runLengths (world : List String → String) (g : Nat → Nat)
    (num_tests : Nat) : List Nat → Nat → List Event × Nat
  | [], k => ([], k)
  | L :: rest, k =>
    (Event.progress L :: (runTrials world g L num_tests k).1 ++
       (runLengths world g num_tests rest (runTrials world g L num_tests k).2).1,
     (runLengths world g num_tests rest (runTrials world g L num_tests k).2).2)

/-- Function `fuzz_compare(min_length, max_length, num_tests)`: iterate over
`range(min_length, max_length + 1)` in ascending order. -/
def fuzz_compare (world : List String → String) (g : Nat → Nat)
    (min_length max_length num_tests k : Nat) : List Event × Nat :=
  runLengths world g num_tests
    (List.range' min_length (max_length + 1 - min_length)) k

/-! ### The `__main__` entry point -/

/-- Minimum string length set in `__main__`. -/
def main_min_length : Nat := 50

/-- Maximum string length set in `__main__`. -/
def main_max_length : Nat := 4096

/-- Number of tests per length set in `__main__`. -/
def main_num_tests : Nat := 100

/-- The program run by `__main__`: `fuzz_compare` at the three constants. -/
def main_run (world : List String → String) (g : Nat → Nat) (k : Nat) :
    List Event × Nat :=
  fuzz_compare world g main_min_length main_max_length main_num_tests k

/-! ### Helper lemmas about the digest rendering -/

theorem md5_final_length (st : Nat × Nat × Nat × Nat) :
    (md5_final st).length = 16 := by
  rcases st with ⟨a, b, c, d⟩
  rfl

theorem md5_final_lt (st : Nat × Nat × Nat × Nat) :
    ∀ b ∈ md5_final st, b < 256 := by
  rcases st with ⟨a, b, c, d⟩
  simp only [md5_final, toLEBytes, List.mem_append, List.mem_cons,
    List.not_mem_nil, or_false]
  intro x h
  omega

theorem md5_digest_length (msg : List Nat) : (md5_digest msg).length = 16 :=
  md5_final_length _

theorem md5_digest_lt (msg : List Nat) : ∀ b ∈ md5_digest msg, b < 256 :=
  md5_final_lt _

theorem getD_mem {α : Type} (l : List α) (i : Nat) (d : α)
    (h : i < l.length) : l.getD i d ∈ l := by
  induction l generalizing i with
  | nil => simp at h
  | cons a t ih =>
    cases i with
    | zero => simp [List.getD]
    | succ j =>
      have : j < t.length := by simpa using h
      simpa [List.getD] using Or.inr (by simpa [List.getD] using ih j this)

theorem byteToHexChars_mem {b : Nat} (hb : b < 256) :
    ∀ c ∈ byteToHexChars b, c ∈ hexCharsList := by
  intro c hc
  have h16 : hexCharsList.length = 16 := by decide
  simp only [byteToHexChars, List.mem_cons, List.not_mem_nil, or_false]
    at hc
  rcases hc with h | h
  · subst h; exact getD_mem _ _ _ (by omega)
  · subst h; exact getD_mem _ _ _ (by omega)

theorem bytesToHexChars_mem {bs : List Nat} (hbs : ∀ b ∈ bs, b < 256) :
    ∀ c ∈ bytesToHexChars bs, c ∈ hexCharsList := by
  induction bs with
  | nil => intro c hc; simp [bytesToHexChars] at hc
  | cons b t ih =>
    intro c hc
    simp only [bytesToHexChars, List.flatMap_cons, List.mem_append] at hc
    rcases hc with h | h
    · exact byteToHexChars_mem (hbs b (by simp)) c h
    · exact ih (fun x hx => hbs x (by simp [hx])) c
        (by simpa [bytesToHexChars] using h)

theorem bytesToHexChars_length (bs : List Nat) :
    (bytesToHexChars bs).length = 2 * bs.length := by
  induction bs with
  | nil => rfl
  | cons b t ih =>
    simp only [bytesToHexChars, List.flatMap_cons, List.length_append,
      List.length_cons] at *
    rw [ih]
    simp only [byteToHexChars, List.length_cons, List.length_nil]
    omega

/-- The oracle's output always has exactly 32 characters. -/
theorem hashlib_length (s : String) :
    (calculate_md5_using_hashlib s).length = 32 := by
  show (String.mk (bytesToHexChars (md5_digest ([] ++ utf8Bytes s)))).length = 32
  show (bytesToHexChars (md5_digest ([] ++ utf8Bytes s))).length = 32
  rw [bytesToHexChars_length, md5_digest_length]

/-- Every character of the oracle's output is a lowercase hex digit. -/
theorem hashlib_mem_hex (s : String) :
    ∀ c ∈ (calculate_md5_using_hashlib s).data, c ∈ hexCharsList := by
  intro c hc
  exact bytesToHexChars_mem (md5_digest_lt _) c hc

/-! ### Helper lemmas about the harness trace -/

theorem runTrial_snd (world : List String → String) (g : Nat → Nat)
    (L k : Nat) : (runTrial world g L k).2 = k + L :=
  rfl

theorem runTrial_fst (world : List String → String) (g : Nat → Nat)
    (L k : Nat) :
    (runTrial world g L k).1 =
      Event.adapterCall (generate_random_string g L k).1 ::
        Event.oracleCall (generate_random_string g L k).1 ::
        (if calculate_md5_using_kibble world (generate_random_string g L k).1
              = calculate_md5_using_hashlib (generate_random_string g L k).1
         then []
         else [Event.mismatch (generate_random_string g L k).1
                (calculate_md5_using_kibble world
                  (generate_random_string g L k).1)
                (calculate_md5_using_hashlib
                  (generate_random_string g L k).1)]) :=
  rfl

theorem runTrial_countP_adapter (world : List String → String)
    (g : Nat → Nat) (L k : Nat) :
    (runTrial world g L k).1.countP Event.isAdapterCall = 1 := by
  rw [runTrial_fst]
  split <;> simp [List.countP_cons, Event.isAdapterCall, Event.isOracleCall,
    Event.isMismatch]

theorem runTrial_countP_oracle (world : List String → String)
    (g : Nat → Nat) (L k : Nat) :
    (runTrial world g L k).1.countP Event.isOracleCall = 1 := by
  rw [runTrial_fst]
  split <;> simp [List.countP_cons, Event.isAdapterCall, Event.isOracleCall,
    Event.isMismatch]

theorem runTrial_countP_mismatch_of_ne (world : List String → String)
    (g : Nat → Nat) (L k : Nat)
    (hw : calculate_md5_using_kibble world (generate_random_string g L k).1
        ≠ calculate_md5_using_hashlib (generate_random_string g L k).1) :
    (runTrial world g L k).1.countP Event.isMismatch = 1 := by
  rw [runTrial_fst, if_neg hw]
  simp [List.countP_cons, Event.isMismatch]

theorem runTrials_countP (world : List String → String) (g : Nat → Nat)
    (L : Nat) (p : Event → Bool) (c : Nat)
    (hc : ∀ k, (runTrial world g L k).1.countP p = c) :
    ∀ n k, (runTrials world g L n k).1.countP p = n * c := by
  intro n
  induction n with
  | zero => intro k; simp [runTrials]
  | succ m ih =>
    intro k
    simp only [runTrials, List.countP_append, hc, ih]
    ring

theorem runTrials_snd (world : List String → String) (g : Nat → Nat)
    (L : Nat) : ∀ n k, (runTrials world g L n k).2 = k + n * L := by
  intro n
  induction n with
  | zero => intro k; simp [runTrials]
  | succ m ih =>
    intro k
    show (runTrials world g L m (runTrial world g L k).2).2 = _
    rw [ih, runTrial_snd]
    ring

theorem runTrial_adapterInputs (world : List String → String)
    (g : Nat → Nat) (L k : Nat) :
    adapterInputs (runTrial world g L k).1
      = [(generate_random_string g L k).1] := by
  rw [adapterInputs, runTrial_fst]
  split <;> simp [adapterInputOf]

theorem runTrial_oracleInputs (world : List String → String)
    (g : Nat → Nat) (L k : Nat) :
    oracleInputs (runTrial world g L k).1
      = [(generate_random_string g L k).1] := by
  rw [oracleInputs, runTrial_fst]
  split <;> simp [oracleInputOf]

theorem runTrial_progressLengths (world : List String → String)
    (g : Nat → Nat) (L k : Nat) :
    progressLengths (runTrial world g L k).1 = [] := by
  rw [progressLengths, runTrial_fst]
  split <;> simp [progressOf]

theorem runTrials_adapterInputs (world : List String → String)
    (g : Nat → Nat) (L : Nat) :
    ∀ n k, adapterInputs (runTrials world g L n k).1
      = (List.range n).map
          (fun i => (generate_random_string g L (k + i * L)).1) := by
  intro n
  induction n with
  | zero => intro k; simp [runTrials, adapterInputs]
  | succ m ih =>
    intro k
    show adapterInputs ((runTrial world g L k).1 ++ _) = _
    rw [adapterInputs, List.filterMap_append, ← adapterInputs,
      ← adapterInputs, runTrial_adapterInputs, ih, runTrial_snd,
      List.range_succ_eq_map, List.map_cons, List.map_map]
    have harg : (fun i => (generate_random_string g L (k + L + i * L)).1)
        = ((fun i => (generate_random_string g L (k + i * L)).1) ∘
            Nat.succ) := by
      funext i
      show (generate_random_string g L (k + L + i * L)).1
        = (generate_random_string g L (k + (i + 1) * L)).1
      have : k + L + i * L = k + (i + 1) * L := by ring
      rw [this]
    rw [harg]
    simp

theorem runTrials_oracleInputs (world : List String → String)
    (g : Nat → Nat) (L : Nat) :
    ∀ n k, oracleInputs (runTrials world g L n k).1
      = adapterInputs (runTrials world g L n k).1 := by
  intro n
  induction n with
  | zero => intro k; simp [runTrials, adapterInputs, oracleInputs]
  | succ m ih =>
    intro k
    show oracleInputs ((runTrial world g L k).1 ++ _)
      = adapterInputs ((runTrial world g L k).1 ++ _)
    rw [oracleInputs, adapterInputs, List.filterMap_append,
      List.filterMap_append, ← oracleInputs, ← adapterInputs,
      ← oracleInputs, ← adapterInputs, runTrial_oracleInputs,
      runTrial_adapterInputs, ih]

theorem runTrials_progressLengths (world : List String → String)
    (g : Nat → Nat) (L : Nat) :
    ∀ n k, progressLengths (runTrials world g L n k).1 = [] := by
  intro n
  induction n with
  | zero => intro k; simp [runTrials, progressLengths]
  | succ m ih =>
    intro k
    show progressLengths ((runTrial world g L k).1 ++ _) = []
    rw [progressLengths, List.filterMap_append, ← progressLengths,
      ← progressLengths, runTrial_progressLengths, ih]
    rfl

theorem runLengths_progressLengths (world : List String → String)
    (g : Nat → Nat) (n : Nat) :
    ∀ ls k, progressLengths (runLengths world g n ls k).1 = ls := by
  intro ls
  induction ls with
  | nil => intro k; simp [runLengths, progressLengths]
  | cons L rest ih =>
    intro k
    have h1 := runTrials_progressLengths world g L n k
    have h2 := ih (runTrials world g L n k).2
    rw [progressLengths] at h1 h2
    show progressLengths (Event.progress L ::
      ((runTrials world g L n k).1 ++
        (runLengths world g n rest (runTrials world g L n k).2).1))
      = L :: rest
    rw [progressLengths]
    simp only [List.filterMap_cons, List.filterMap_append, progressOf,
      h1, h2]
    rfl

theorem runLengths_countP (world : List String → String) (g : Nat → Nat)
    (n : Nat) (p : Event → Bool) (c : Nat)
    (hp : ∀ L, p (Event.progress L) = false)
    (hc : ∀ L k, (runTrials world g L n k).1.countP p = c) :
    ∀ ls k, (runLengths world g n ls k).1.countP p = ls.length * c := by
  intro ls
  induction ls with
  | nil => intro k; simp [runLengths]
  | cons L rest ih =>
    intro k
    show ((Event.progress L :: (runTrials world g L n k).1) ++ _).countP p
      = _
    rw [List.countP_append, List.countP_cons, hc, ih, hp]
    simp only [Bool.false_eq_true, if_false, Nat.add_zero, List.length_cons]
    ring

/-! ### Helper lemmas about `pyStrip` -/

theorem dropWhile_sandwich {α : Type} (p : α → Bool) (l : List α) :
    ∃ pre, l = pre ++ l.dropWhile p := by
  induction l with
  | nil => exact ⟨[], rfl⟩
  | cons a t ih =>
    by_cases h : p a
    · rcases ih with ⟨pre, hpre⟩
      refine ⟨a :: pre, ?_⟩
      rw [List.dropWhile_cons, if_pos h, List.cons_append, ← hpre]
    · exact ⟨[], by rw [List.dropWhile_cons, if_neg h]; rfl⟩

theorem dropWhile_head_not {α : Type} (p : α → Bool) (l : List α) :
    ((l.dropWhile p).head?.all fun a => !p a) = true := by
  induction l with
  | nil => rfl
  | cons a t ih =>
    by_cases h : p a
    · rw [List.dropWhile_cons, if_pos h]
      exact ih
    · rw [List.dropWhile_cons, if_neg h]
      simpa using h

theorem stripData_sandwich {α : Type} (p : α → Bool) (l : List α) :
    ∃ pre suf,
      l = pre ++ ((l.dropWhile p).reverse.dropWhile p).reverse ++ suf := by
  rcases dropWhile_sandwich p l with ⟨pre, hpre⟩
  generalize hd : l.dropWhile p = d1 at hpre ⊢
  rcases dropWhile_sandwich p d1.reverse with ⟨mid, hmid⟩
  generalize hm : d1.reverse.dropWhile p = m at hmid ⊢
  refine ⟨pre, mid.reverse, ?_⟩
  have hd1 : d1 = m.reverse ++ mid.reverse := by
    have := congrArg List.reverse hmid
    simpa [List.reverse_append] using this
  rw [hpre, hd1, List.append_assoc]

theorem stripData_head_not {α : Type} (p : α → Bool) (l : List α) :
    ((((l.dropWhile p).reverse.dropWhile p).reverse).head?.all
        fun a => !p a) = true := by
  have h1 := dropWhile_head_not p l
  generalize hd : l.dropWhile p = d1 at h1 ⊢
  rcases dropWhile_sandwich p d1.reverse with ⟨mid, hmid⟩
  generalize hm : d1.reverse.dropWhile p = m at hmid ⊢
  have hd1 : d1 = m.reverse ++ mid.reverse := by
    have := congrArg List.reverse hmid
    simpa [List.reverse_append] using this
  cases hc : m.reverse with
  | nil => rfl
  | cons a t =>
    rw [hc] at hd1
    rw [hd1] at h1
    simpa using h1

theorem stripData_getLast_not {α : Type} (p : α → Bool) (l : List α) :
    ((((l.dropWhile p).reverse.dropWhile p).reverse).getLast?.all
        fun a => !p a) = true := by
  rw [List.getLast?_reverse]
  exact dropWhile_head_not p (l.dropWhile p).reverse

theorem hexChars_not_ws : ∀ c ∈ hexCharsList, isPyWhitespace c = false := by
  decide

theorem strip_hex_tail (h : Char) (t : List Char)
    (hh : isPyWhitespace h = false) :
    ((((h :: t) ++ [' ', ' ', '-', '\n']).dropWhile
        isPyWhitespace).reverse.dropWhile isPyWhitespace).reverse
      = (h :: t) ++ [' ', ' ', '-'] := by
  have w1 : isPyWhitespace '\n' = true := by decide
  have w2 : isPyWhitespace '-' = false := by decide
  rw [List.cons_append, List.dropWhile_cons, hh]
  simp only [Bool.false_eq_true, if_false]
  rw [List.reverse_cons, List.reverse_append]
  rw [show ([' ', ' ', '-', '\n'] : List Char).reverse
      = ['\n', '-', ' ', ' '] from rfl]
  rw [List.append_assoc]
  rw [show (['\n', '-', ' ', ' '] : List Char) ++ (t.reverse ++ [h])
      = '\n' :: '-' :: ' ' :: ' ' :: (t.reverse ++ [h]) from rfl]
  rw [List.dropWhile_cons, w1]
  simp only [if_true]
  rw [List.dropWhile_cons, w2]
  simp only [Bool.false_eq_true, if_false]
  simp [List.reverse_cons, List.append_assoc]

theorem sliceDropLast3_append (l : List Char) (hl : l.length = 32) :
    pySliceDropLast3 ⟨l ++ [' ', ' ', '-']⟩ = ⟨l⟩ := by
  show (⟨(l ++ [' ', ' ', '-']).take
    ((l ++ [' ', ' ', '-']).length - 3)⟩ : String) = ⟨l⟩
  congr 1
  rw [List.length_append, hl]
  show (l ++ [' ', ' ', '-']).take 32 = l
  rw [← hl, List.take_left]

/-! ### Claim theorems (part 1) -/

/-- C4: the reference oracle encodes the input as UTF-8 bytes, computes the
16-byte MD5 digest of those bytes, and returns its lowercase hexadecimal
rendering (32 characters, all lowercase hex digits); in the embedding it is
a pure function of its input. -/
theorem hashlib_oracle_spec (s : String) :
    calculate_md5_using_hashlib s = bytesToLowerHex (md5_digest (utf8Bytes s))
      ∧ (calculate_md5_using_hashlib s).length = 32
      ∧ ((calculate_md5_using_hashlib s).data.all
           fun c => hexCharsList.contains c) = true := by
  refine ⟨rfl, hashlib_length s, ?_⟩
  rw [List.all_eq_true]
  intro c hc
  exact List.elem_eq_true_of_mem (hashlib_mem_hex s c hc)

/-- C5: the test-case generator returns a string of exactly the requested
length, for every random stream and counter; length 0 yields the empty
string. -/
theorem generate_random_string_length (g : Nat → Nat) (L k : Nat) :
    ((generate_random_string g L k).1).length = L
      ∧ (generate_random_string g 0 k).1 = "" := by
  constructor
  · show ((List.range L).map _).length = L
    simp
  · rfl

/-- C6: every character of every generated string lies in the fixed
62-symbol alphabet `characters` (ASCII letters and digits), for every
random stream state; `characters` has exactly 62 symbols, all
alphanumeric. -/
theorem generate_random_string_alphabet (g : Nat → Nat) (L k : Nat) :
    (((generate_random_string g L k).1).data.all
        fun c => characters.contains c) = true
      ∧ characters.length = 62
      ∧ (characters.all Char.isAlphanum) = true := by
  refine ⟨?_, by decide, by decide⟩
  rw [List.all_eq_true]
  intro c hc
  have hc' : c ∈ (List.range L).map
      (fun i => (random_choice g (k + i) characters).1) := hc
  rcases List.mem_map.mp hc' with ⟨i, _, hce⟩
  have h62 : characters.length = 62 := by decide
  have : (random_choice g (k + i) characters).1 ∈ characters := by
    show characters.getD (g (k + i) % characters.length) 'a' ∈ characters
    exact getD_mem _ _ _ (Nat.mod_lt _ (by rw [h62]; norm_num))
  rw [← hce]
  exact List.elem_eq_true_of_mem this

/-- C8: the reference oracle is a deterministic, state-free function of its
input: it is built by updating a fresh md5 context with the input bytes, so
two calls on the same string yield identical output. -/
theorem hashlib_oracle_deterministic (s : String) :
    calculate_md5_using_hashlib s = calculate_md5_using_hashlib s
      ∧ calculate_md5_using_hashlib s
          = (hashlib_md5_new.update (utf8Bytes s)).hexdigest := by
  exact ⟨rfl, rfl⟩

/-- C9: the `__main__` entry point runs `fuzz_compare` at the fixed
constants min_length = 50, max_length = 4096, num_tests = 100. -/
theorem main_run_constants (world : List String → String) (g : Nat → Nat)
    (k : Nat) :
    main_min_length = 50 ∧ main_max_length = 4096 ∧ main_num_tests = 100
      ∧ main_run world g k = fuzz_compare world g 50 4096 100 k := by
  exact ⟨rfl, rfl, rfl, rfl⟩

/-- C1: for every configuration with `min_length ≤ max_length`,
`fuzz_compare` enumerates exactly the lengths `min_length .. max_length`
in ascending order with none skipped or duplicated, and at every length it
invokes the adapter exactly `num_tests` times and the oracle exactly
`num_tests` times, on one freshly generated test case per trial (both on
the same one). -/
theorem fuzz_compare_coverage (world : List String → String) (g : Nat → Nat)
    (min_length max_length num_tests k : Nat)
    (h : min_length ≤ max_length) :
    progressLengths (fuzz_compare world g min_length max_length num_tests
          k).1
        = List.range' min_length (max_length + 1 - min_length)
      ∧ (∀ L, L ∈ progressLengths (fuzz_compare world g min_length
            max_length num_tests k).1
          ↔ min_length ≤ L ∧ L ≤ max_length)
      ∧ (progressLengths (fuzz_compare world g min_length max_length
            num_tests k).1).Pairwise (· < ·)
      ∧ (fuzz_compare world g min_length max_length num_tests k).1.countP
            Event.isAdapterCall
          = (max_length + 1 - min_length) * num_tests
      ∧ (fuzz_compare world g min_length max_length num_tests k).1.countP
            Event.isOracleCall
          = (max_length + 1 - min_length) * num_tests
      ∧ ∀ L k0,
          (runTrials world g L num_tests k0).1.countP Event.isAdapterCall
              = num_tests
            ∧ (runTrials world g L num_tests k0).1.countP
                Event.isOracleCall = num_tests
            ∧ adapterInputs (runTrials world g L num_tests k0).1
                = (List.range num_tests).map
                    (fun i => (generate_random_string g L (k0 + i * L)).1)
            ∧ oracleInputs (runTrials world g L num_tests k0).1
                = adapterInputs (runTrials world g L num_tests k0).1 := by
  have hprog := runLengths_progressLengths world g num_tests
    (List.range' min_length (max_length + 1 - min_length)) k
  have hAd : ∀ L k0, (runTrials world g L num_tests k0).1.countP
      Event.isAdapterCall = num_tests := by
    intro L k0
    rw [runTrials_countP world g L Event.isAdapterCall 1
      (fun kk => runTrial_countP_adapter world g L kk) num_tests k0]
    ring
  have hOr : ∀ L k0, (runTrials world g L num_tests k0).1.countP
      Event.isOracleCall = num_tests := by
    intro L k0
    rw [runTrials_countP world g L Event.isOracleCall 1
      (fun kk => runTrial_countP_oracle world g L kk) num_tests k0]
    ring
  refine ⟨hprog, ?_, ?_, ?_, ?_, ?_⟩
  · intro L
    rw [fuzz_compare, hprog, List.mem_range'_1]
    omega
  · rw [fuzz_compare, hprog]
    exact List.pairwise_lt_range' _ _
  · rw [fuzz_compare, runLengths_countP world g num_tests
      Event.isAdapterCall num_tests (fun _ => rfl) hAd, List.length_range']
  · rw [fuzz_compare, runLengths_countP world g num_tests
      Event.isOracleCall num_tests (fun _ => rfl) hOr, List.length_range']
  · intro L k0
    exact ⟨hAd L k0, hOr L k0, runTrials_adapterInputs world g L num_tests
      k0, runTrials_oracleInputs world g L num_tests k0⟩

/-- Witness for C1 at the concrete configuration
`min_length = 1, max_length = 2, num_tests = 1`. -/
theorem fuzz_compare_coverage_witness :
    1 ≤ 2
      ∧ progressLengths (fuzz_compare (fun _ => "") (fun _ => 0) 1 2 1 0).1
          = List.range' 1 2 :=
  ⟨by decide,
   (fuzz_compare_coverage (fun _ => "") (fun _ => 0) 1 2 1 0 (by decide)).1⟩

/-- C2: even when the adapter disagrees with the oracle on every input,
`fuzz_compare` still runs every configured length and every trial to
completion — the progress lines and the adapter/oracle invocation counts
are exactly as in a clean run — and it emits exactly one mismatch report
per trial. -/
theorem fuzz_compare_nonhalting (world : List String → String)
    (g : Nat → Nat) (min_length max_length num_tests k : Nat)
    (hw : ∀ s : String, calculate_md5_using_kibble world s
        ≠ calculate_md5_using_hashlib s) :
    (fuzz_compare world g min_length max_length num_tests k).1.countP
          Event.isMismatch
        = (max_length + 1 - min_length) * num_tests
      ∧ progressLengths (fuzz_compare world g min_length max_length
            num_tests k).1
          = List.range' min_length (max_length + 1 - min_length)
      ∧ (fuzz_compare world g min_length max_length num_tests k).1.countP
            Event.isAdapterCall
          = (max_length + 1 - min_length) * num_tests
      ∧ (fuzz_compare world g min_length max_length num_tests k).1.countP
            Event.isOracleCall
          = (max_length + 1 - min_length) * num_tests := by
  have hMis : ∀ L k0, (runTrials world g L num_tests k0).1.countP
      Event.isMismatch = num_tests := by
    intro L k0
    rw [runTrials_countP world g L Event.isMismatch 1
      (fun kk => runTrial_countP_mismatch_of_ne world g L kk (hw _))
      num_tests k0]
    ring
  have hAd : ∀ L k0, (runTrials world g L num_tests k0).1.countP
      Event.isAdapterCall = num_tests := by
    intro L k0
    rw [runTrials_countP world g L Event.isAdapterCall 1
      (fun kk => runTrial_countP_adapter world g L kk) num_tests k0]
    ring
  have hOr : ∀ L k0, (runTrials world g L num_tests k0).1.countP
      Event.isOracleCall = num_tests := by
    intro L k0
    rw [runTrials_countP world g L Event.isOracleCall 1
      (fun kk => runTrial_countP_oracle world g L kk) num_tests k0]
    ring
  refine ⟨?_, runLengths_progressLengths world g num_tests _ k, ?_, ?_⟩
  · rw [fuzz_compare, runLengths_countP world g num_tests Event.isMismatch
      num_tests (fun _ => rfl) hMis, List.length_range']
  · rw [fuzz_compare, runLengths_countP world g num_tests
      Event.isAdapterCall num_tests (fun _ => rfl) hAd, List.length_range']
  · rw [fuzz_compare, runLengths_countP world g num_tests
      Event.isOracleCall num_tests (fun _ => rfl) hOr, List.length_range']

/-- Witness for C2: an adapter that always answers the fixed string "x"
(never a valid 32-character digest) still yields a complete run with one
mismatch per trial: 2 lengths × 1 trial = 2 mismatch reports. -/
theorem fuzz_compare_nonhalting_witness :
    (∀ s : String, calculate_md5_using_kibble (fun _ => "x") s
        ≠ calculate_md5_using_hashlib s)
      ∧ (fuzz_compare (fun _ => "x") (fun _ => 0) 1 2 1 0).1.countP
          Event.isMismatch = (2 + 1 - 1) * 1 := by
  have hw : ∀ s : String, calculate_md5_using_kibble (fun _ => "x") s
      ≠ calculate_md5_using_hashlib s := by
    intro s hEq
    have h1 : (calculate_md5_using_kibble (fun _ => "x") s).length = 1 :=
      rfl
    rw [hEq] at h1
    have h2 := hashlib_length s
    omega
  exact ⟨hw,
    (fuzz_compare_nonhalting (fun _ => "x") (fun _ => 0) 1 2 1 0 hw).1⟩

/-- C3: in every trial, the mismatch reports are exactly one record,
carrying the very input string that was generated for the trial together
with the candidate and expected digests compared, when the two digests
differ, and none when they agree; the same un-regenerated string is the
one passed to the adapter and the oracle. -/
theorem runTrial_mismatch_report (world : List String → String)
    (g : Nat → Nat) (L k : Nat) :
    mismatchEvents (runTrial world g L k).1
        = (if calculate_md5_using_kibble world
                (generate_random_string g L k).1
              = calculate_md5_using_hashlib (generate_random_string g L k).1
           then []
           else [Event.mismatch (generate_random_string g L k).1
                  (calculate_md5_using_kibble world
                    (generate_random_string g L k).1)
                  (calculate_md5_using_hashlib
                    (generate_random_string g L k).1)])
      ∧ adapterInputs (runTrial world g L k).1
          = [(generate_random_string g L k).1]
      ∧ oracleInputs (runTrial world g L k).1
          = [(generate_random_string g L k).1] := by
  refine ⟨?_, runTrial_adapterInputs world g L k,
    runTrial_oracleInputs world g L k⟩
  rw [mismatchEvents, runTrial_fst]
  split <;> simp [Event.isMismatch]

/-- C7: the adapter builds the argv vector `["../bin/kmd5", input]` with
the input string as its single positional argument, captures the entire
standard output of that subprocess, strips leading and trailing whitespace
from it, and returns the result: the returned string is a contiguous piece
of the captured output with no whitespace left at either end. -/
theorem calculate_md5_using_kibble_spec (world : List String → String)
    (s : String) :
    kmd5_command s = ["../bin/kmd5", s]
      ∧ calculate_md5_using_kibble world s
          = pyStrip (world (kmd5_command s))
      ∧ (∃ pre suf, (world (kmd5_command s)).data
          = pre ++ (calculate_md5_using_kibble world s).data ++ suf)
      ∧ ((calculate_md5_using_kibble world s).data.head?.all
            fun c => !isPyWhitespace c) = true
      ∧ ((calculate_md5_using_kibble world s).data.getLast?.all
            fun c => !isPyWhitespace c) = true := by
  refine ⟨rfl, rfl, ?_, ?_, ?_⟩
  · exact stripData_sandwich isPyWhitespace (world (kmd5_command s)).data
  · exact stripData_head_not isPyWhitespace (world (kmd5_command s)).data
  · exact stripData_getLast_not isPyWhitespace (world (kmd5_command s)).data

/-- C10: on every string over the 62-symbol alphanumeric alphabet the
unused md5sum-based reference path — `echo -n` piped into `md5sum`, whose
output (32 lowercase hex characters, two spaces, a dash, a newline) is
stripped of surrounding whitespace and then shortened by its last three
characters — returns exactly the digest computed by the hashlib-based
reference path. -/
theorem md5sum_path_agrees (s : String)
    (halpha : ∀ c ∈ s.data, c ∈ characters) :
    calculate_md5_using_md5sum s = calculate_md5_using_hashlib s := by
  have hlen : (bytesToHexChars (md5_digest (utf8Bytes s))).length = 32 := by
    rw [bytesToHexChars_length, md5_digest_length]
  have hmem : ∀ c ∈ bytesToHexChars (md5_digest (utf8Bytes s)),
      isPyWhitespace c = false := fun c hc =>
    hexChars_not_ws c (bytesToHexChars_mem (md5_digest_lt _) c hc)
  obtain ⟨h, t, hht⟩ : ∃ h t,
      bytesToHexChars (md5_digest (utf8Bytes s)) = h :: t := by
    cases hx : bytesToHexChars (md5_digest (utf8Bytes s)) with
    | nil => rw [hx] at hlen; simp at hlen
    | cons a b => exact ⟨a, b, rfl⟩
  have hstrip : pyStrip (md5sum_stdout (echo_n_stdout s))
      = ⟨bytesToHexChars (md5_digest (utf8Bytes s)) ++ [' ', ' ', '-']⟩ := by
    show (⟨(((bytesToHexChars (md5_digest (utf8Bytes s)) ++
        [' ', ' ', '-', '\n']).dropWhile
        isPyWhitespace).reverse.dropWhile isPyWhitespace).reverse⟩ : String)
      = _
    rw [hht]
    exact congrArg String.mk
      (strip_hex_tail h t (hmem h (by rw [hht]; simp)))
  show pySliceDropLast3 (pyStrip (md5sum_stdout (echo_n_stdout s))) = _
  rw [hstrip]
  exact sliceDropLast3_append _ hlen

/-- Witness for C10 at the concrete alphanumeric input "A". -/
theorem md5sum_path_agrees_witness :
    (∀ c ∈ ("A" : String).data, c ∈ characters)
      ∧ calculate_md5_using_md5sum "A" = calculate_md5_using_hashlib "A" :=
  ⟨by decide, md5sum_path_agrees "A" (by decide)⟩

end KibbleFuzz
